import Mathlib

/-!
# Verification of the `present` terminal slideshow core

Shallow embedding of the parts of the `present` package that carry the
spec's invariants:

* `src/present/effects.py` — the `Codio` renderer's incremental reveal
  state machine (`_reset`, `_get_code`, `_render_now`);
* `src/present/slide.py` — the `Codio` element (`size`, `render`), the
  `Slide` class (`style` and `elements` setters) with its `COLORS` /
  `EFFECTS` tables;
* `src/present/markdown.py` — the slide-grouping loop of
  `Markdown.parse` (`dump_slide`);
* `src/present/dynamic_formatter.py` — `DynamicFormatter._get_color`
  and the `ASCIIMATIC_COLORS` table.

Python dictionaries with a fixed key set become structures; optional
dictionary keys become `Option` fields (`none` = key absent); Python
`None`-or-string values become `Option String`; `ValueError` /
fatal errors become `Except String`.
-/

namespace Present

/-! ## Reveal engine (`effects.py`, class `Codio`)

One transcript line as produced by `slide.Codio.render` and consumed by
`effects.Codio`: the dict `{"prompt": .., "in": .., "out": ..}` plus the
optional style keys.  `in` is a Lean keyword, so the field is `inp`. -/

structure RenderLine where
  prompt : String
  inp : String
  out : String
  color : Option String := none
  bold : Option Bool := none
  underline : Option Bool := none
deriving Repr, DecidableEq

/-- Per-line reveal state: `{"len": 0, "start": False, "end": False}`.
`end` is a Lean keyword, so the field is `end_`. -/
structure LineState where
  len : Nat
  start : Bool
  end_ : Bool
deriving Repr, DecidableEq

/-- The fresh per-line state built by `Codio._reset`. -/
def initLS : LineState := ⟨0, false, false⟩

/-- `Codio._reset`: one zero state per transcript line.  The Python dict
`{i: {...} for i in range(len(self._code))}` is the list indexed by
position. -/
def initState (code : List RenderLine) : List LineState :=
  code.map fun _ => initLS

/-- State at index `i`.  All accesses in the source are in range; the
default only totalizes the function. -/
def stGet (st : List LineState) (i : Nat) : LineState :=
  st.getD i initLS

/-- The guard `self._state.get(i - 1) is not None and not
self._state[i - 1]["end"]` of `Codio._get_code`: for `i = 0` the Python
index `i - 1 = -1` is never a key, so the guard is false; for `i = j + 1`
the key `j` is present exactly when `j < st.length`. -/
def predNotEnd (st : List LineState) (i : Nat) : Bool :=
  match i with
  | 0 => false
  | j + 1 => if j < st.length then !(stGet st j).end_ else false

/-- The first statement of `Codio._get_code`:
`if self._state.get(i - 1) is None: self._state[i]["start"] = True`.
The guard holds exactly for `i = 0` among the indices `_render_now`
passes in (for `i ≥ 1`, `i - 1` is a key of the state dict). -/
def startAdj (st : List LineState) (i : Nat) : List LineState :=
  if i = 0 then st.set 0 { stGet st 0 with start := true } else st

/-- `Codio._get_code(i)`: returns the updated state dict together with
the Python return value.  The outer `Option` is `none` for the implicit
`return None` fall-through (a line with neither input nor output, which
`_render_now` would fail to unpack); `some (inp?, out?)` models the
2-tuple, each component `none` exactly when Python returns `None` in
that position. -/
def getCode (code : List RenderLine) (st : List LineState) (i : Nat) :
    List LineState × Option (Option String × Option String) :=
  let st := startAdj st i
  match code.get? i with
  | none => (st, none)
  | some ci =>
    let si := stGet st i
    if ci.inp ≠ "" then
      if si.len = ci.inp.length then
        -- `self._state[i]["end"] = True; return in, out`
        (st.set i { si with end_ := true }, some (some ci.inp, some ci.out))
      else if predNotEnd st i then
        (st, some (none, none))
      else
        -- `c = in[: len]; len += 1; return c, None`
        (st.set i { si with len := si.len + 1 },
          some (some (ci.inp.take si.len), none))
    else if ci.out ≠ "" then
      if predNotEnd st i then
        (st, some (none, none))
      else
        (st.set i { si with end_ := true }, some (none, some ci.out))
    else
      (st, none)

/-- The `for i, c in enumerate(self._code)` loop of `Codio._render_now`,
restricted to its state effect and the `_get_code` results: processes
the given indices in order, threading the state. -/
def runLines (code : List RenderLine) :
    List Nat → List LineState →
    List LineState × List (Option (Option String × Option String))
  | [], st => (st, [])
  | i :: is, st =>
    let p := getCode code st i
    let q := runLines code is p.1
    (q.1, p.2 :: q.2)

/-- One `_render_now` call: every line index in order. -/
def renderNow (code : List RenderLine) (st : List LineState) :
    List LineState × List (Option (Option String × Option String)) :=
  runLines code (List.range code.length) st

/-- The state effect of one animation tick. -/
def tick (code : List RenderLine) (st : List LineState) : List LineState :=
  (renderNow code st).1

/-- State after `k` ticks from the reset state. -/
def tickN (code : List RenderLine) (k : Nat) : List LineState :=
  (tick code)^[k] (initState code)

/-- The `_get_code` results of the `k+1`-st tick (0-based `k`). -/
def tickResults (code : List RenderLine) (k : Nat) :
    List (Option (Option String × Option String)) :=
  (renderNow code (tickN code k)).2

/-- The example transcript of the spec:
`[{in:"a",out:"1"}, {in:"bb",out:"2"}]` (empty prompts). -/
def exTranscript : List RenderLine :=
  [{ prompt := "", inp := "a", out := "1" },
   { prompt := "", inp := "bb", out := "2" }]

/-! ### Basic state-list lemmas -/

theorem stGet_set_ne :
    ∀ (st : List LineState) (i j : Nat) (v : LineState), i ≠ j →
      stGet (st.set i v) j = stGet st j
  | [], _, _, _, _ => rfl
  | _ :: _, 0, 0, _, h => absurd rfl h
  | _ :: _, 0, _ + 1, _, _ => rfl
  | _ :: _, _ + 1, 0, _, _ => rfl
  | _ :: st, i + 1, j + 1, v, h =>
    stGet_set_ne st i j v (fun e => h (congrArg Nat.succ e))

/-- `stGet` after a `set` at the same index: the new value when the index
is in range, the old entry (the `set` is a no-op) otherwise. -/
theorem stGet_set_cases :
    ∀ (st : List LineState) (i : Nat) (v : LineState),
      (i < st.length ∧ stGet (st.set i v) i = v) ∨
      (st.length ≤ i ∧ stGet (st.set i v) i = stGet st i)
  | [], i, _ => Or.inr ⟨Nat.zero_le i, rfl⟩
  | _ :: _, 0, _ => Or.inl ⟨Nat.succ_pos _, rfl⟩
  | a :: st, i + 1, v => by
    rcases stGet_set_cases st i v with ⟨h1, h2⟩ | ⟨h1, h2⟩
    · exact Or.inl ⟨Nat.succ_lt_succ h1, h2⟩
    · exact Or.inr ⟨Nat.succ_le_succ h1, h2⟩

theorem stGet_initState :
    ∀ (code : List RenderLine) (i : Nat), stGet (initState code) i = initLS
  | [], 0 => rfl
  | [], _ + 1 => rfl
  | _ :: _, 0 => rfl
  | _ :: code, i + 1 => stGet_initState code i

theorem length_startAdj (st : List LineState) (i : Nat) :
    (startAdj st i).length = st.length := by
  unfold startAdj; split <;> simp

theorem stGet_startAdj_len (st : List LineState) (i j : Nat) :
    (stGet (startAdj st i) j).len = (stGet st j).len := by
  unfold startAdj
  split
  · rcases eq_or_ne 0 j with rfl | hne
    · rcases stGet_set_cases st 0 { stGet st 0 with start := true } with
        ⟨_, h2⟩ | ⟨_, h2⟩ <;> rw [h2]
    · rw [stGet_set_ne st 0 j _ hne]
  · rfl

theorem stGet_startAdj_end (st : List LineState) (i j : Nat) :
    (stGet (startAdj st i) j).end_ = (stGet st j).end_ := by
  unfold startAdj
  split
  · rcases eq_or_ne 0 j with rfl | hne
    · rcases stGet_set_cases st 0 { stGet st 0 with start := true } with
        ⟨_, h2⟩ | ⟨_, h2⟩ <;> rw [h2]
    · rw [stGet_set_ne st 0 j _ hne]
  · rfl

theorem predNotEnd_startAdj (st : List LineState) (i k : Nat) :
    predNotEnd (startAdj st i) k = predNotEnd st k := by
  cases k with
  | zero => rfl
  | succ j =>
    show (if j < (startAdj st i).length then !(stGet (startAdj st i) j).end_
        else false) =
      (if j < st.length then !(stGet st j).end_ else false)
    rw [length_startAdj, stGet_startAdj_end]

theorem stGet_startAdj_ne (st : List LineState) (i j : Nat) (h : j ≠ i) :
    stGet (startAdj st i) j = stGet st j := by
  unfold startAdj
  split
  · next hi => subst hi; exact stGet_set_ne st 0 j _ (Ne.symm h)
  · rfl

/-! ### Case analysis of one `_get_code` call -/

theorem length_getCode (code : List RenderLine) (st : List LineState)
    (i : Nat) : ((getCode code st i).1).length = st.length := by
  unfold getCode
  cases hc : code.get? i
  · simpa using length_startAdj st i
  · simp only []
    split_ifs <;> simp [List.length_set, length_startAdj]

/-- `_get_code(i)` only mutates the state entry at index `i`. -/
theorem stGet_getCode_ne (code : List RenderLine) (st : List LineState)
    {i j : Nat} (h : j ≠ i) :
    stGet (getCode code st i).1 j = stGet st j := by
  unfold getCode
  cases hc : code.get? i
  · simpa using stGet_startAdj_ne st i j h
  · simp only []
    split_ifs <;>
      simp [stGet_set_ne _ i j _ (Ne.symm h), stGet_startAdj_ne st i j h]

/-- The reveal counter of line `i` after `_get_code(i)`: unchanged, or
incremented by one — and an increment happens only for an in-range,
unblocked line with input left to reveal. -/
theorem getCode_len_cases (code : List RenderLine) (st : List LineState)
    (i : Nat) :
    (stGet (getCode code st i).1 i).len = (stGet st i).len ∨
    ((stGet (getCode code st i).1 i).len = (stGet st i).len + 1 ∧
      i < st.length ∧ predNotEnd st i = false ∧
      ∃ ci, code.get? i = some ci ∧ ci.inp ≠ "" ∧
        (stGet st i).len ≠ ci.inp.length) := by
  have hlen0 : (stGet (startAdj st i) i).len = (stGet st i).len :=
    stGet_startAdj_len st i i
  have hpred : predNotEnd (startAdj st i) i = predNotEnd st i :=
    predNotEnd_startAdj st i i
  have hL : (startAdj st i).length = st.length := length_startAdj st i
  unfold getCode
  cases hc : code.get? i with
  | none => exact Or.inl hlen0
  | some ci =>
    dsimp only
    set sa := startAdj st i with hsa
    set s0 := stGet sa i with hs0
    split_ifs with h1 h2 h3 h4 h5
    · dsimp only
      rcases stGet_set_cases sa i ⟨s0.len, s0.start, true⟩ with
          ⟨_, hv⟩ | ⟨_, hv⟩ <;>
        exact Or.inl (by rw [hv]; exact hlen0)
    · exact Or.inl hlen0
    · dsimp only
      rcases stGet_set_cases sa i ⟨s0.len + 1, s0.start, s0.end_⟩ with
          ⟨hr, hv⟩ | ⟨_, hv⟩
      · refine Or.inr ⟨?_, ?_, ?_, ci, rfl, h1, ?_⟩
        · rw [hv]; exact congrArg Nat.succ hlen0
        · rwa [hL] at hr
        · rw [← hpred]; exact eq_false_of_ne_true h3
        · rw [← hlen0]; exact h2
      · exact Or.inl (by rw [hv]; exact hlen0)
    · exact Or.inl hlen0
    · dsimp only
      rcases stGet_set_cases sa i ⟨s0.len, s0.start, true⟩ with
          ⟨_, hv⟩ | ⟨_, hv⟩ <;>
        exact Or.inl (by rw [hv]; exact hlen0)
    · exact Or.inl hlen0

/-- A line once marked `end` stays marked across any `_get_code` call. -/
theorem getCode_end_mono (code : List RenderLine) (st : List LineState)
    (i j : Nat) (h : (stGet st j).end_ = true) :
    (stGet (getCode code st i).1 j).end_ = true := by
  rcases eq_or_ne j i with rfl | hne
  · have hend0 : (stGet (startAdj st j) j).end_ = (stGet st j).end_ :=
      stGet_startAdj_end st j j
    unfold getCode
    cases hc : code.get? j with
    | none => exact hend0.trans h
    | some ci =>
      dsimp only
      set sa := startAdj st j with hsa
      set s0 := stGet sa j with hs0
      split_ifs with h1 h2 h3 h4 h5
      · dsimp only
        rcases stGet_set_cases sa j ⟨s0.len, s0.start, true⟩ with
            ⟨_, hv⟩ | ⟨_, hv⟩
        · rw [hv]
        · rw [hv]; exact hend0.trans h
      · exact hend0.trans h
      · dsimp only
        rcases stGet_set_cases sa j ⟨s0.len + 1, s0.start, s0.end_⟩ with
            ⟨_, hv⟩ | ⟨_, hv⟩
        · rw [hv]; exact hend0.trans h
        · rw [hv]; exact hend0.trans h
      · exact hend0.trans h
      · dsimp only
        rcases stGet_set_cases sa j ⟨s0.len, s0.start, true⟩ with
            ⟨_, hv⟩ | ⟨_, hv⟩
        · rw [hv]
        · rw [hv]; exact hend0.trans h
      · exact hend0.trans h
  · rwa [stGet_getCode_ne code st hne]

/-- The `end` flag of line `i` after `_get_code(i)`: unchanged, or newly
set for an in-range line — either a fully revealed input line, or an
unblocked output-only line. -/
theorem getCode_end_cases (code : List RenderLine) (st : List LineState)
    (i : Nat) :
    (stGet (getCode code st i).1 i).end_ = (stGet st i).end_ ∨
    ((stGet (getCode code st i).1 i).end_ = true ∧ i < st.length ∧
      ((∃ ci, code.get? i = some ci ∧ ci.inp ≠ "" ∧
          (stGet st i).len = ci.inp.length) ∨
       (∃ ci, code.get? i = some ci ∧ ci.inp = "" ∧ ci.out ≠ "" ∧
          predNotEnd st i = false))) := by
  have hlen0 : (stGet (startAdj st i) i).len = (stGet st i).len :=
    stGet_startAdj_len st i i
  have hend0 : (stGet (startAdj st i) i).end_ = (stGet st i).end_ :=
    stGet_startAdj_end st i i
  have hpred : predNotEnd (startAdj st i) i = predNotEnd st i :=
    predNotEnd_startAdj st i i
  have hL : (startAdj st i).length = st.length := length_startAdj st i
  unfold getCode
  cases hc : code.get? i with
  | none => exact Or.inl hend0
  | some ci =>
    dsimp only
    set sa := startAdj st i with hsa
    set s0 := stGet sa i with hs0
    split_ifs with h1 h2 h3 h4 h5
    · dsimp only
      rcases stGet_set_cases sa i ⟨s0.len, s0.start, true⟩ with
          ⟨hr, hv⟩ | ⟨_, hv⟩
      · refine Or.inr ⟨by rw [hv], by rwa [hL] at hr,
          Or.inl ⟨ci, rfl, h1, ?_⟩⟩
        rw [← hlen0]; exact h2
      · exact Or.inl (by rw [hv]; exact hend0)
    · exact Or.inl hend0
    · dsimp only
      rcases stGet_set_cases sa i ⟨s0.len + 1, s0.start, s0.end_⟩ with
          ⟨_, hv⟩ | ⟨_, hv⟩ <;>
        exact Or.inl (by rw [hv]; exact hend0)
    · exact Or.inl hend0
    · dsimp only
      rcases stGet_set_cases sa i ⟨s0.len, s0.start, true⟩ with
          ⟨hr, hv⟩ | ⟨_, hv⟩
      · refine Or.inr ⟨by rw [hv], by rwa [hL] at hr,
          Or.inr ⟨ci, rfl, not_not.mp h1, h4, ?_⟩⟩
        rw [← hpred]; exact eq_false_of_ne_true h5
      · exact Or.inl (by rw [hv]; exact hend0)
    · exact Or.inl hend0

theorem string_empty_of_length_zero {s : String} (h : s.length = 0) :
    s = "" := by
  apply String.ext
  show s.data = "".data
  have h2 : s.data = [] :=
    List.length_eq_zero.mp (by rw [String.length_data]; exact h)
  rw [h2]

theorem getCode_len_le (code : List RenderLine) (st : List LineState)
    (i j : Nat) :
    (stGet st j).len ≤ (stGet (getCode code st i).1 j).len := by
  rcases eq_or_ne j i with rfl | hne
  · rcases getCode_len_cases code st j with h | ⟨h, _⟩
    · exact le_of_eq h.symm
    · rw [h]; exact Nat.le_succ _
  · rw [stGet_getCode_ne code st hne]

/-- The reveal counter of a line never passes its input length. -/
theorem getCode_len_bound (code : List RenderLine) (st : List LineState)
    (i j : Nat) (cj : RenderLine) (hc : code.get? j = some cj)
    (h : (stGet st j).len ≤ cj.inp.length) :
    (stGet (getCode code st i).1 j).len ≤ cj.inp.length := by
  rcases eq_or_ne j i with rfl | hne
  · rcases getCode_len_cases code st j with he | ⟨he, _, _, ci, hci, _, hneq⟩
    · rw [he]; exact h
    · have hcc : ci = cj := Option.some.inj (hci.symm.trans hc)
      subst hcc
      rw [he]
      omega
  · rw [stGet_getCode_ne code st hne]; exact h

/-! ### Lifting through one full `_render_now` pass and through ticks -/

theorem runLines_len_le (code : List RenderLine) (is : List Nat) :
    ∀ (st : List LineState) (j : Nat),
      (stGet st j).len ≤ (stGet (runLines code is st).1 j).len := by
  induction is with
  | nil => intro st j; exact le_refl _
  | cons i is ih =>
    intro st j
    exact le_trans (getCode_len_le code st i j) (ih (getCode code st i).1 j)

theorem runLines_len_bound (code : List RenderLine) (is : List Nat) :
    ∀ (st : List LineState) (j : Nat) (cj : RenderLine),
      code.get? j = some cj → (stGet st j).len ≤ cj.inp.length →
      (stGet (runLines code is st).1 j).len ≤ cj.inp.length := by
  induction is with
  | nil => intro st j cj _ h; exact h
  | cons i is ih =>
    intro st j cj hc h
    exact ih (getCode code st i).1 j cj hc (getCode_len_bound code st i j cj hc h)

theorem runLines_end_mono (code : List RenderLine) (is : List Nat) :
    ∀ (st : List LineState) (j : Nat), (stGet st j).end_ = true →
      (stGet (runLines code is st).1 j).end_ = true := by
  induction is with
  | nil => intro st j h; exact h
  | cons i is ih =>
    intro st j h
    exact ih (getCode code st i).1 j (getCode_end_mono code st i j h)

theorem tick_len_le (code : List RenderLine) (st : List LineState) (j : Nat) :
    (stGet st j).len ≤ (stGet (tick code st) j).len :=
  runLines_len_le code (List.range code.length) st j

theorem tick_len_bound (code : List RenderLine) (st : List LineState)
    (j : Nat) (cj : RenderLine) (hc : code.get? j = some cj)
    (h : (stGet st j).len ≤ cj.inp.length) :
    (stGet (tick code st) j).len ≤ cj.inp.length :=
  runLines_len_bound code (List.range code.length) st j cj hc h

theorem tick_end_mono (code : List RenderLine) (st : List LineState)
    (j : Nat) (h : (stGet st j).end_ = true) :
    (stGet (tick code st) j).end_ = true :=
  runLines_end_mono code (List.range code.length) st j h

theorem tickN_succ (code : List RenderLine) (k : Nat) :
    tickN code (k + 1) = tick code (tickN code k) := by
  unfold tickN
  exact Function.iterate_succ_apply' (tick code) k (initState code)

theorem tickN_len_bound (code : List RenderLine) (k j : Nat)
    (cj : RenderLine) (hc : code.get? j = some cj) :
    (stGet (tickN code k) j).len ≤ cj.inp.length := by
  induction k with
  | zero =>
    show (stGet (initState code) j).len ≤ _
    rw [stGet_initState]
    exact Nat.zero_le _
  | succ k ih =>
    rw [tickN_succ]
    exact tick_len_bound code (tickN code k) j cj hc ih

/-! ### The strict-ordering invariant -/

/-- A reachable reveal state is ordered: a line whose predecessor is not
yet complete has revealed nothing and is not complete itself. -/
def Ordered (st : List LineState) : Prop :=
  ∀ i, (stGet st i).end_ = false →
    (stGet st (i + 1)).len = 0 ∧ (stGet st (i + 1)).end_ = false

theorem ordered_initState (code : List RenderLine) :
    Ordered (initState code) := by
  intro i _
  rw [stGet_initState]
  exact ⟨rfl, rfl⟩

theorem ordered_getCode (code : List RenderLine) (st : List LineState)
    (i : Nat) (h : Ordered st) : Ordered (getCode code st i).1 := by
  intro j hj
  by_cases hji : j = i
  · subst hji
    have hjold : (stGet st j).end_ = false := by
      cases hb : (stGet st j).end_
      · rfl
      · have ht := getCode_end_mono code st j j hb
        rw [ht] at hj
        exact Bool.noConfusion hj
    have hne : j + 1 ≠ j := Nat.succ_ne_self j
    rw [stGet_getCode_ne code st hne]
    exact h j hjold
  · have hjunch : stGet (getCode code st i).1 j = stGet st j :=
      stGet_getCode_ne code st hji
    have hjold : (stGet st j).end_ = false := by rw [← hjunch]; exact hj
    have h0 := h j hjold
    by_cases hj1 : j + 1 = i
    · subst hj1
      constructor
      · rcases getCode_len_cases code st (j + 1) with he | ⟨he, hr, hp, _⟩
        · rw [he]; exact h0.1
        · exfalso
          have hjr : j < st.length := Nat.lt_of_succ_lt hr
          have hpt : predNotEnd st (j + 1) = true := by
            show (if j < st.length then !(stGet st j).end_ else false) = true
            rw [if_pos hjr, hjold]; rfl
          rw [hp] at hpt
          exact Bool.noConfusion hpt
      · rcases getCode_end_cases code st (j + 1) with he | ⟨_, hr, hcs⟩
        · rw [he]; exact h0.2
        · exfalso
          have hjr : j < st.length := Nat.lt_of_succ_lt hr
          rcases hcs with ⟨ci, _, hinp, hlen⟩ | ⟨ci, _, _, _, hp⟩
          · rw [h0.1] at hlen
            exact hinp (string_empty_of_length_zero hlen.symm)
          · have hpt : predNotEnd st (j + 1) = true := by
              show (if j < st.length then !(stGet st j).end_ else false) = true
              rw [if_pos hjr, hjold]; rfl
            rw [hp] at hpt
            exact Bool.noConfusion hpt
    · rw [stGet_getCode_ne code st hj1]
      exact h0

theorem ordered_runLines (code : List RenderLine) (is : List Nat) :
    ∀ (st : List LineState), Ordered st → Ordered (runLines code is st).1 := by
  induction is with
  | nil => intro st h; exact h
  | cons i is ih =>
    intro st h
    exact ih (getCode code st i).1 (ordered_getCode code st i h)

theorem ordered_tickN (code : List RenderLine) (k : Nat) :
    Ordered (tickN code k) := by
  induction k with
  | zero => exact ordered_initState code
  | succ k ih =>
    rw [tickN_succ]
    exact ordered_runLines code (List.range code.length) (tickN code k) ih

/-! ## Claims C1–C3: the reveal state machine -/

/-- C1 — Reveal Engine strict ordering: for every transcript and every
pair of consecutive lines `i`, `i+1`, under any sequence of ticks from
the reset state, line `i+1` never enters the revealing state (its
`revealedLength` stays 0) and never enters the complete state while
line `i` is not complete. -/
theorem c1_strict_ordering (code : List RenderLine) (k i : Nat)
    (h : (stGet (tickN code k) i).end_ = false) :
    (stGet (tickN code k) (i + 1)).len = 0 ∧
      (stGet (tickN code k) (i + 1)).end_ = false :=
  ordered_tickN code k i h

theorem c1_strict_ordering_witness :
    (stGet (tickN exTranscript 1) 1).len = 0 ∧
      (stGet (tickN exTranscript 1) 1).end_ = false :=
  c1_strict_ordering exTranscript 1 0 (by decide)

/-- C2 — Reveal monotonicity: for every transcript line with non-empty
input, across any sequence of ticks from the reset state,
`revealedLength` is non-decreasing, never exceeds the input's length,
and once the line's complete flag is set it is never cleared except by
the reset operation, which gives every line `revealedLength = 0` and
cleared start/finish flags. -/
theorem c2_reveal_monotonicity (code : List RenderLine) (k i : Nat)
    (ci : RenderLine) (hc : code.get? i = some ci) (hin : ci.inp ≠ "") :
    (stGet (tickN code k) i).len ≤ (stGet (tickN code (k + 1)) i).len ∧
    (stGet (tickN code k) i).len ≤ ci.inp.length ∧
    ((stGet (tickN code k) i).end_ = true →
      (stGet (tickN code (k + 1)) i).end_ = true) ∧
    stGet (initState code) i = initLS := by
  refine ⟨?_, tickN_len_bound code k i ci hc, ?_, stGet_initState code i⟩
  · rw [tickN_succ]
    exact tick_len_le code (tickN code k) i
  · intro he
    rw [tickN_succ]
    exact tick_end_mono code (tickN code k) i he

theorem c2_reveal_monotonicity_witness :
    (stGet (tickN exTranscript 0) 0).len ≤
        (stGet (tickN exTranscript 1) 0).len ∧
      (stGet (tickN exTranscript 0) 0).len ≤ ("a" : String).length ∧
      ((stGet (tickN exTranscript 0) 0).end_ = true →
        (stGet (tickN exTranscript 1) 0).end_ = true) ∧
      stGet (initState exTranscript) 0 = initLS :=
  c2_reveal_monotonicity exTranscript 0 0
    { prompt := "", inp := "a", out := "1" } rfl (by decide)

/-- C3 counterexample — the claim says that after 1 tick on
`[{in:"a",out:"1"}, {in:"bb",out:"2"}]` line 0 displays `"a"`, is
complete and emits `"1"`.  In the code the first tick returns the empty
prefix `in[:0]` with no output and leaves the line incomplete: the
counter is incremented only after slicing, and the complete flag is set
only on the next call. -/
theorem c3_counterexample :
    ¬ ((tickResults exTranscript 0).getD 0 none =
          some (some "a", some "1") ∧
        (stGet (tickN exTranscript 1) 0).end_ = true) ∧
      (tickResults exTranscript 0).getD 0 none = some (some "", none) ∧
      (stGet (tickN exTranscript 1) 0).end_ = false := by decide

/-- C3 amended — per-tick reveal progress: for a transcript line with
non-empty input, an eligible tick with `revealedLength < n` displays
`input[:revealedLength]` (the pre-tick counter) with output withheld and
then increments `revealedLength` by one; the line is marked complete on
the first tick at which `revealedLength` already equals `n`, and that
tick displays the full input together with the output; a blocked tick
changes nothing.  For the transcript
`[{in:"a",out:"1"}, {in:"bb",out:"2"}]`, it is after 2 ticks that line 0
displays `"a"`, is complete, and emits its output `"1"`. -/
theorem c3_amended (code : List RenderLine) (st : List LineState)
    (i : Nat) (ci : RenderLine) (hc : code.get? i = some ci)
    (hin : ci.inp ≠ "") (hrange : i < st.length) :
    ((stGet st i).len = ci.inp.length →
      (getCode code st i).2 = some (some ci.inp, some ci.out) ∧
      (stGet (getCode code st i).1 i).end_ = true) ∧
    ((stGet st i).len ≠ ci.inp.length → predNotEnd st i = false →
      (getCode code st i).2 =
          some (some (ci.inp.take (stGet st i).len), none) ∧
      (stGet (getCode code st i).1 i).len = (stGet st i).len + 1) ∧
    ((stGet st i).len ≠ ci.inp.length → predNotEnd st i = true →
      (getCode code st i).2 = some (none, none) ∧
      (stGet (getCode code st i).1 i).len = (stGet st i).len) ∧
    ((tickResults exTranscript 1).getD 0 none =
        some (some "a", some "1") ∧
      (stGet (tickN exTranscript 2) 0).end_ = true) := by
  have hsl := stGet_startAdj_len st i i
  have hpe := predNotEnd_startAdj st i i
  have hLL := length_startAdj st i
  refine ⟨fun hlen => ?_, fun hlen hpred => ?_, fun hlen hpred => ?_,
    by decide⟩
  · unfold getCode
    rw [hc]
    dsimp only
    have hlen' : (stGet (startAdj st i) i).len = ci.inp.length := by
      rw [hsl]; exact hlen
    rw [if_pos hin, if_pos hlen']
    refine ⟨rfl, ?_⟩
    rcases stGet_set_cases (startAdj st i) i
        ⟨(stGet (startAdj st i) i).len, (stGet (startAdj st i) i).start,
          true⟩ with ⟨_, hv⟩ | ⟨hge, _⟩
    · rw [hv]
    · rw [hLL] at hge; omega
  · unfold getCode
    rw [hc]
    dsimp only
    have hlen' : ¬ (stGet (startAdj st i) i).len = ci.inp.length := by
      rw [hsl]; exact hlen
    have hp' : ¬ (predNotEnd (startAdj st i) i = true) := by
      rw [hpe, hpred]; exact Bool.false_ne_true
    rw [if_pos hin, if_neg hlen', if_neg hp']
    constructor
    · rw [hsl]
    · rcases stGet_set_cases (startAdj st i) i
          ⟨(stGet (startAdj st i) i).len + 1,
            (stGet (startAdj st i) i).start,
            (stGet (startAdj st i) i).end_⟩ with ⟨_, hv⟩ | ⟨hge, _⟩
      · rw [hv]; exact congrArg Nat.succ hsl
      · rw [hLL] at hge; omega
  · unfold getCode
    rw [hc]
    dsimp only
    have hlen' : ¬ (stGet (startAdj st i) i).len = ci.inp.length := by
      rw [hsl]; exact hlen
    have hp' : predNotEnd (startAdj st i) i = true := by
      rw [hpe]; exact hpred
    rw [if_pos hin, if_neg hlen', if_pos hp']
    exact ⟨rfl, hsl⟩

theorem c3_amended_witness :
    (getCode exTranscript (tickN exTranscript 1) 0).2 =
        some (some "a", some "1") ∧
      (stGet (getCode exTranscript (tickN exTranscript 1) 0).1 0).end_ =
        true :=
  (c3_amended exTranscript (tickN exTranscript 1) 0
      { prompt := "", inp := "a", out := "1" } rfl (by decide)
      (by decide)).1 (by decide)

/-! ## The `Codio` element (`slide.py`, class `Codio`)

One raw transcript line as loaded from the yaml file: every key is
optional (`none` = key absent), matching the `line.get(key, default)`
accesses of the source. -/

structure YamlLine where
  prompt : Option String := none
  inp : Option String := none
  out : Option String := none
  progress : Option Bool := none
  progressChar : Option String := none
  color : Option String := none
  bold : Option Bool := none
  underline : Option Bool := none
deriving Repr, DecidableEq

/-- `Codio.size`: the line count, plus one per line with both non-empty
input and non-empty output, plus 2 for the frame border. -/
def codioSize (lines : List YamlLine) : Nat :=
  (lines.foldl
    (fun acc line =>
      if (line.inp.getD "" != "") && (line.out.getD "" != "") then acc + 1
      else acc)
    lines.length) + 2

/-- Python string repetition `s * n`. -/
def repeatStr (s : String) (n : Nat) : String :=
  String.join (List.replicate n s)

/-- The body of the `for yaml_line in self.obj["lines"]` loop of
`Codio.render`: `none` models the `continue` that skips a line with no
prompt, input or output.  `width` is the element's computed `width`
(it involves the ambient terminal size, so it is a parameter here);
`int(0.6 * width)` is modelled in exact arithmetic as `6 * width / 10`. -/
def renderLine (width : Nat) (l : YamlLine) : Option RenderLine :=
  -- `if yaml_line.get("progress") is not None and yaml_line["progress"]:`
  if l.progress.getD false then
    some { prompt := "", out := "",
           inp := repeatStr (l.progressChar.getD "█") (6 * width / 10) }
  else
    let prompt := l.prompt.getD ""
    let inp := l.inp.getD ""
    let out := l.out.getD ""
    if prompt = "" ∧ inp = "" ∧ out = "" then
      none
    else if inp = "" ∧ out = "" then
      -- `# if only prompt is present, print it all at once`
      some { prompt := "", inp := inp, out := prompt,
             color := l.color, bold := l.bold, underline := l.underline }
    else
      some { prompt := prompt, inp := inp, out := out,
             color := l.color, bold := l.bold, underline := l.underline }

/-- `Codio.render`: the transcript handed to the reveal engine. -/
def codioRender (width : Nat) (lines : List YamlLine) : List RenderLine :=
  lines.filterMap (renderLine width)

/-! ## Slides (`slide.py`, class `Slide`; tables from `effects.py`) -/

/-- `COLORS` of `effects.py`: color name → asciimatics `Screen` colour
code (`COLOUR_BLACK = 0` … `COLOUR_WHITE = 7`). -/
def COLORS : List (String × Nat) :=
  [("black", 0), ("red", 1), ("green", 2), ("yellow", 3),
   ("blue", 4), ("magenta", 5), ("cyan", 6), ("white", 7)]

/-- `EFFECTS` of `effects.py`. -/
def EFFECTS : List String :=
  ["fireworks", "explosions", "stars", "matrix", "plasma"]

/-- Dictionary lookup on an association list with unique keys (a parsed
style directive such as `{"effect": "stars"}`). -/
def lookupStr (d : List (String × String)) (k : String) : Option String :=
  (d.find? (fun p => p.1 == k)).map (·.2)

/-- `COLORS[name]`, as an `Option` (`none` = `KeyError`). -/
def lookupColor (c : String) : Option Nat :=
  (COLORS.find? (fun p => p.1 == c)).map (·.2)

/-- A renderable element as far as the `Slide` setters observe it: its
`type` tag, the parsed `key=value` attributes of a raw-html node
(`BlockHtml.style`, empty for every other kind), and the `fg`/`bg`
dataclass fields with their `Renderable` defaults `fg = 0`, `bg = 7`. -/
structure Element where
  type : String
  styleAttrs : List (String × String) := []
  fg : Nat := 0
  bg : Nat := 7
deriving Repr, DecidableEq

/-- The `Slide` object; field defaults are the `__init__` assignments. -/
structure Slide where
  _elements : List Element := []
  _style : List (String × String) := []
  has_style : Bool := false
  has_effect : Bool := false
  has_image : Bool := false
  has_code : Bool := false
  has_codio : Bool := false
  effect : Option String := none
  fg_color : Nat := 0
  bg_color : Nat := 7
deriving Repr, DecidableEq

/-- The effect block of the `Slide.style` setter. -/
def applyEffect (s : Slide) (style : List (String × String)) :
    Except String Slide :=
  match lookupStr style "effect" with
  | none => Except.ok s
  | some eff =>
    if eff ∈ EFFECTS then
      Except.ok { s with has_effect := true, effect := some eff,
                         fg_color := 7, bg_color := 0 }
    else
      Except.error (s!"Effect {eff} is not supported")

/-- One iteration of the `for color_key in ("fg", "bg")` loop of the
`Slide.style` setter. -/
def applyColorKey (s : Slide) (style : List (String × String))
    (key : String) (isFg : Bool) : Except String Slide :=
  match lookupStr style key with
  | none => Except.ok s
  | some c =>
    match lookupColor c with
    | some v =>
      Except.ok (if isFg then { s with fg_color := v }
                 else { s with bg_color := v })
    | none => Except.error (s!"Color {c} is not supported")

/-- The `Slide.style` setter (`ValueError` = `Except.error`). -/
def setStyle (s : Slide) (style : List (String × String)) :
    Except String Slide :=
  match applyEffect s style with
  | Except.error m => Except.error m
  | Except.ok s1 =>
    match applyColorKey s1 style "fg" true with
    | Except.error m => Except.error m
    | Except.ok s2 =>
      match applyColorKey s2 style "bg" false with
      | Except.error m => Except.error m
      | Except.ok s3 =>
        if s3.has_effect ∧
            (lookupStr style "fg" ≠ none ∨ lookupStr style "bg" ≠ none) then
          Except.error "Effects and colors on the same slide are not supported"
        else if s3.has_effect ∧ s3.has_code then
          Except.error "Effects and code on the same slide are not supported"
        else
          Except.ok { s3 with _style := style }

/-- The `for e in elements` loop of the `Slide.elements` setter,
accumulating the flag updates and the `renderable` list. -/
def elemLoop (s : Slide) (renderable : List Element) :
    List Element → Except String (Slide × List Element)
  | [] => Except.ok (s, renderable)
  | e :: rest =>
    if e.type = "code" then
      elemLoop { s with has_code := true } (renderable ++ [e]) rest
    else if e.type = "codio" then
      elemLoop { s with has_codio := true } (renderable ++ [e]) rest
    else if e.type = "html" then
      -- `if e.style: ...` then `continue` (html is never appended)
      if e.styleAttrs ≠ [] then
        match setStyle { s with has_style := true } e.styleAttrs with
        | Except.error m => Except.error m
        | Except.ok s2 => elemLoop s2 renderable rest
      else
        elemLoop s renderable rest
    else if e.type = "image" then
      elemLoop { s with has_image := true } (renderable ++ [e]) rest
    else
      elemLoop s (renderable ++ [e]) rest

/-- The `Slide.elements` setter.  After the loop, the source runs
`if self.has_effect: for e in self.elements: e.fg = ...; e.bg = ...`
over the OLD `self._elements` list and then rebinds
`self._elements = renderable`, discarding those mutations: the setter is
only called from `__init__`, where `self._elements == []` and shares no
objects with `renderable`, so the colour pass has no observable
effect. -/
def setElements (s : Slide) (elements : List Element) :
    Except String Slide :=
  match elemLoop s [] elements with
  | Except.error m => Except.error m
  | Except.ok (s2, renderable) => Except.ok { s2 with _elements := renderable }

/-- `Slide.__init__(elements)`: default fields, then the setter. -/
def slideInit (elements : List Element) : Except String Slide :=
  setElements {} elements

/-- `isOk` projection of an `Except`. -/
def exceptIsOk {α : Type} (e : Except String α) : Bool :=
  match e with
  | Except.ok _ => true
  | Except.error _ => false

def htmlStyleEl (attrs : List (String × String)) : Element :=
  { type := "html", styleAttrs := attrs }

def codeEl : Element := { type := "code" }

def textEl : Element := { type := "text" }

/-! ## Claims C8, C10: the `Codio` element -/

theorem foldl_count (p : YamlLine → Bool) (lines : List YamlLine) :
    ∀ (n : Nat),
      List.foldl (fun acc l => if p l then acc + 1 else acc) n lines =
        n + lines.countP p := by
  induction lines with
  | nil => intro n; simp
  | cons l ls ih =>
    intro n
    simp only [List.foldl_cons, List.countP_cons]
    cases h : p l <;> simp [h, ih] <;> omega

/-- C8 — Codio size formula: for every live-reveal transcript element,
the computed size equals the number of transcript lines, plus one for
each line whose input and output are both non-empty, plus 2 for the
frame border. -/
theorem c8_codio_size (lines : List YamlLine) :
    codioSize lines =
      lines.length +
        lines.countP
          (fun l => (l.inp.getD "" != "") && (l.out.getD "" != "")) + 2 := by
  unfold codioSize
  rw [foldl_count]

/-- C10 — prompt-only line promotion: a non-progress transcript line
with a non-empty prompt but empty input and output is rendered with the
prompt text moved into the output field and the prompt cleared, and the
reveal engine treats the result as an output-only line: one eligible
tick emits the text in full and marks the line complete. -/
theorem c10_prompt_only_promotion (w : Nat) (l : YamlLine)
    (hp : l.progress.getD false = false)
    (hprompt : l.prompt.getD "" ≠ "")
    (hin : l.inp.getD "" = "") (hout : l.out.getD "" = "") :
    renderLine w l =
      some { prompt := "", inp := "", out := l.prompt.getD "",
             color := l.color, bold := l.bold, underline := l.underline } ∧
    ∀ (code : List RenderLine) (st : List LineState) (i : Nat)
      (ci : RenderLine), code.get? i = some ci → ci.inp = "" →
      ci.out = l.prompt.getD "" → predNotEnd st i = false →
      (getCode code st i).2 = some (none, some (l.prompt.getD "")) ∧
      (i < st.length → (stGet (getCode code st i).1 i).end_ = true) := by
  constructor
  · simp [renderLine, hp, hin, hout, hprompt]
  · intro code st i ci hc hinp hout' hpred
    have hpe := predNotEnd_startAdj st i i
    have hLL := length_startAdj st i
    unfold getCode
    rw [hc]
    dsimp only
    have h1 : ¬ ci.inp ≠ "" := by rw [hinp]; exact not_not_intro rfl
    have h2 : ci.out ≠ "" := by rw [hout']; exact hprompt
    have h3 : ¬ (predNotEnd (startAdj st i) i = true) := by
      rw [hpe, hpred]; exact Bool.false_ne_true
    rw [if_neg h1, if_pos h2, if_neg h3]
    refine ⟨by rw [hout'], fun hr => ?_⟩
    rcases stGet_set_cases (startAdj st i) i
        ⟨(stGet (startAdj st i) i).len, (stGet (startAdj st i) i).start,
          true⟩ with ⟨_, hv⟩ | ⟨hge, _⟩
    · rw [hv]
    · rw [hLL] at hge; omega

theorem c10_prompt_only_promotion_witness :
    renderLine 0 ({ prompt := some "hello" } : YamlLine) =
      some { prompt := "", inp := "", out := "hello" } ∧
    (getCode [{ prompt := "", inp := "", out := "hello" }]
        (initState [{ prompt := "", inp := "", out := "hello" }]) 0).2 =
      some (none, some "hello") := by
  have h := c10_prompt_only_promotion 0 { prompt := some "hello" }
    rfl (by decide) rfl rfl
  exact ⟨h.1,
    (h.2 [{ prompt := "", inp := "", out := "hello" }]
      (initState [{ prompt := "", inp := "", out := "hello" }]) 0
      { prompt := "", inp := "", out := "hello" } rfl rfl rfl rfl).1⟩

/-! ## Claims C4–C6: slide styles -/

/-- C4 — the effect color overwrite is a code bug: constructing the
slide `[<!-- effect=stars -->, text]` resolves the effect and the color
pair (7, 0), but the text element keeps its dataclass default colors
(0, 7): the overwrite loop in the `elements` setter iterates the stale
`self._elements` list (still empty inside `__init__`) before the new
`renderable` list is assigned, so no element is ever recolored. -/
theorem c4_effect_color_overwrite_bug :
    (slideInit [htmlStyleEl [("effect", "stars")], textEl]).map
        (fun s => (s.has_effect, s.fg_color, s.bg_color,
          s._elements.map (fun e => (e.fg, e.bg)))) =
      Except.ok (true, 7, 0, [(0, 7)]) := rfl

/-- C5 counterexample — with the style directive before the code element
the construction succeeds: no "effects and code" error is raised even
though the finished slide has both the effect and a code element. -/
theorem c5_effect_code_counterexample :
    (slideInit [htmlStyleEl [("effect", "stars")], codeEl]).map
        (fun s => (s.has_effect, s.has_code)) =
      Except.ok (true, true) := rfl

/-- C5 amended — the effect/code incompatibility is detected only at
style-application time: when a code element precedes the style directive
that sets a supported effect, slide construction fails with the fatal
"effects and code" error; a code element appearing after the directive
escapes the check. -/
theorem c5_effect_code_order (eff : String) (h : eff ∈ EFFECTS) :
    slideInit [codeEl, htmlStyleEl [("effect", eff)]] =
      Except.error "Effects and code on the same slide are not supported" := by
  fin_cases h <;> rfl

theorem c5_effect_code_order_witness :
    slideInit [codeEl, htmlStyleEl [("effect", "stars")]] =
      Except.error "Effects and code on the same slide are not supported" :=
  c5_effect_code_order "stars" (by decide)

theorem applyColorKey_has_effect (s : Slide)
    (style : List (String × String)) (key : String) (isFg : Bool)
    (s' : Slide) (h : applyColorKey s style key isFg = Except.ok s') :
    s'.has_effect = s.has_effect := by
  unfold applyColorKey at h
  cases hf : lookupStr style key with
  | none =>
    rw [hf] at h
    dsimp only at h
    rw [← Except.ok.inj h]
  | some c =>
    rw [hf] at h
    dsimp only at h
    cases hc : lookupColor c with
    | some v =>
      rw [hc] at h
      dsimp only at h
      rw [← Except.ok.inj h]
      cases isFg <;> rfl
    | none =>
      rw [hc] at h
      exact Except.noConfusion h

/-- C6 — effect/explicit-color mutual exclusion: a style directive that
sets a supported effect together with an explicit foreground or
background color never applies successfully; the style setter raises a
fatal configuration error instead of preferring either setting. -/
theorem c6_effect_color_exclusive (s : Slide)
    (style : List (String × String)) (eff : String)
    (he : lookupStr style "effect" = some eff) (hsup : eff ∈ EFFECTS)
    (hcol : lookupStr style "fg" ≠ none ∨ lookupStr style "bg" ≠ none) :
    exceptIsOk (setStyle s style) = false := by
  have he1 : applyEffect s style =
      Except.ok { s with has_effect := true, effect := some eff,
                         fg_color := 7, bg_color := 0 } := by
    unfold applyEffect
    rw [he]
    dsimp only
    rw [if_pos hsup]
  unfold setStyle
  rw [he1]
  dsimp only
  cases hf : applyColorKey
      { s with has_effect := true, effect := some eff,
               fg_color := 7, bg_color := 0 } style "fg" true with
  | error m => rfl
  | ok s2 =>
    dsimp only
    cases hb : applyColorKey s2 style "bg" false with
    | error m => rfl
    | ok s3 =>
      dsimp only
      have h3 : s3.has_effect = true := by
        rw [applyColorKey_has_effect s2 style "bg" false s3 hb,
          applyColorKey_has_effect _ style "fg" true s2 hf]
      rw [if_pos ⟨h3, hcol⟩]
      rfl

theorem c6_effect_color_exclusive_witness :
    exceptIsOk (setStyle {} [("effect", "stars"), ("fg", "red")]) = false :=
  c6_effect_color_exclusive {} [("effect", "stars"), ("fg", "red")] "stars"
    rfl (by decide) (Or.inl (by decide))

/-! ## Markdown slide grouping (`markdown.py`, `Markdown.parse`) -/

/-- One node of the parsed document as the slide-grouping loop sees it:
`newline` nodes are skipped, `thematic_break` nodes dump the buffer, and
every other node contributes the renderable element the
`RenderableFactory` classifies it into (`block e`).  The paragraph
special case, which splits off image/codio children via file IO, is
outside this embedding; the raw-markup comment node of claim C7 goes
through the plain `block` path. -/
inductive Node where
  | newline
  | thematicBreak
  | block (e : Element)
deriving Repr, DecidableEq

/-- The `for i, obj in enumerate(ast)` loop of `Markdown.parse` with its
nested `dump_slide`: `bufr` is the in-progress element buffer;
`dump_slide` appends `Slide(elements=bufr)` only when `bufr` is
non-empty. -/
def parseLoop : List Node → List Element → Except String (List Slide)
  | [], bufr =>
    -- the trailing `dump_slide()` after the loop
    if bufr = [] then Except.ok []
    else
      match slideInit bufr with
      | Except.error m => Except.error m
      | Except.ok s => Except.ok [s]
  | n :: rest, bufr =>
    match n with
    | Node.newline => parseLoop rest bufr
    | Node.thematicBreak =>
      if bufr = [] then parseLoop rest []
      else
        match slideInit bufr with
        | Except.error m => Except.error m
        | Except.ok s =>
          match parseLoop rest [] with
          | Except.error m => Except.error m
          | Except.ok ss => Except.ok (s :: ss)
    | Node.block e => parseLoop rest (bufr ++ [e])

/-- `Markdown.parse`, restricted to its slide-grouping effect. -/
def parseSlides (ns : List Node) : Except String (List Slide) :=
  parseLoop ns []

/-- A raw-markup comment: an html node whose text holds no `key=value`
pair, so `BlockHtml.style` is empty. -/
def htmlComment : Element := { type := "html" }

/-- C7 counterexample — the claim says a document consisting solely of a
raw-markup comment node and a thematic break produces zero slides.  On
the code it produces one slide: `dump_slide` only tests whether the raw
buffer is empty, and the buffer still holds the comment element, which
is dropped only later inside the `elements` setter. -/
theorem c7_empty_slide_counterexample :
    (parseSlides [Node.block htmlComment, Node.thematicBreak]).map
        List.length = Except.ok 1 ∧
    (Except.ok 1 : Except String Nat) ≠ Except.ok 0 :=
  ⟨rfl, fun h => one_ne_zero (Except.ok.inj h)⟩

/-- C7 amended — a slide is discarded only when its raw element buffer
is empty (consecutive breaks, leading breaks, or an empty document); a
buffer containing only dropped raw-markup comments still yields a slide,
whose renderable element list is empty after drop-filtering. -/
theorem c7_empty_slide_amended :
    parseSlides [] = Except.ok [] ∧
    parseSlides [Node.newline, Node.thematicBreak, Node.thematicBreak] =
      Except.ok [] ∧
    (parseSlides [Node.block htmlComment, Node.thematicBreak]).map
        (fun ss => ss.map Slide._elements) = Except.ok [[]] :=
  ⟨rfl, rfl, rfl⟩

/-! ## Token color mapper (`dynamic_formatter.py`) -/

/-- A lexical token category, as its path of name parts below the root
`Token` category (`[] = Token`, `["Name", "Function"] = Name.Function`);
`ttype.parent` is `dropLast`. -/
def lookupTok (table : List (List String × Nat)) (t : List String) :
    Option Nat :=
  (table.find? (fun p => p.1 == t)).map (·.2)

/-- `DynamicFormatter._get_color`: look the category up, walking to the
parent while absent.  The Python `while` loop never exits with `None`;
if even the root misses the loop would fault on `None.parent`, modelled
by the `none` result in the `[]` case. -/
def getColor (table : List (List String × Nat)) (t : List String) :
    Option Nat :=
  match lookupTok table t, t with
  | some c, _ => some c
  | none, [] => none
  | none, a :: l => getColor table ((a :: l).dropLast)
termination_by t.length
decreasing_by
  simp_wf

/-- `ASCIIMATIC_COLORS` of `dynamic_formatter.py`, with each pygments
token written as its path below `Token` and each asciimatics `Screen`
colour as its code (`COLOUR_BLACK = 0` … `COLOUR_WHITE = 7`). -/
def ASCIIMATIC_COLORS : List (List String × Nat) :=
  [([], 7),
   (["Text", "Whitespace"], 7),
   (["Comment"], 7),
   (["Comment", "Preproc"], 6),
   (["Keyword"], 4),
   (["Keyword", "Type"], 6),
   (["Operator", "Word"], 5),
   (["Name", "Builtin"], 6),
   (["Name", "Function"], 2),
   (["Name", "Namespace"], 6),
   (["Name", "Class"], 2),
   (["Name", "Exception"], 6),
   (["Name", "Decorator"], 7),
   (["Name", "Variable"], 1),
   (["Name", "Constant"], 1),
   (["Name", "Attribute"], 6),
   (["Name", "Tag"], 4),
   (["Literal", "String"], 3),
   (["Literal", "Number"], 4),
   (["Generic", "Deleted"], 1),
   (["Generic", "Inserted"], 2),
   (["Generic", "Heading"], 7),
   (["Generic", "Subheading"], 5),
   (["Generic", "Prompt"], 7),
   (["Generic", "Error"], 1),
   (["Error"], 1)]

/-- `k` parent-hops of a token category. -/
def dropLastN : Nat → List String → List String
  | 0, t => t
  | k + 1, t => dropLastN k t.dropLast

/-- C9 — token color fallback termination: given that the root category
has an entry in the color table, the lookup of any category resolves to
a defined color after a bounded number of parent-hops — the exact table
entry if present, otherwise the entry of the nearest ancestor (every
strictly closer ancestor, and the category itself, being absent). -/
theorem c9_color_fallback (table : List (List String × Nat))
    (t : List String) (c0 : Nat) (hroot : lookupTok table [] = some c0) :
    ∃ c k, getColor table t = some c ∧ k ≤ t.length ∧
      lookupTok table (dropLastN k t) = some c ∧
      ∀ j, j < k → lookupTok table (dropLastN j t) = none := by
  cases hl : lookupTok table t with
  | some c =>
    refine ⟨c, 0, ?_, Nat.zero_le _, hl, ?_⟩
    · simp [getColor, hl]
    · intro j hj; exact absurd hj (Nat.not_lt_zero j)
  | none =>
    cases t with
    | nil => rw [hl] at hroot; exact Option.noConfusion hroot
    | cons a l =>
      obtain ⟨c, k, h1, h2, h3, h4⟩ :=
        c9_color_fallback table ((a :: l).dropLast) c0 hroot
      refine ⟨c, k + 1, ?_, ?_, h3, ?_⟩
      · rw [show getColor table (a :: l) =
              getColor table ((a :: l).dropLast) by simp [getColor, hl]]
        exact h1
      · have hdl : ((a :: l).dropLast).length = l.length := by
          simp [List.length_dropLast]
        rw [hdl] at h2
        simpa using Nat.succ_le_succ h2
      · intro j hj
        cases j with
        | zero => exact hl
        | succ j' => exact h4 j' (Nat.lt_of_succ_lt_succ hj)
termination_by t.length
decreasing_by
  simp_wf

theorem c9_color_fallback_witness :
    ∃ c k,
      getColor ASCIIMATIC_COLORS ["Name", "Function", "Magic"] = some c ∧
      k ≤ (["Name", "Function", "Magic"] : List String).length ∧
      lookupTok ASCIIMATIC_COLORS
          (dropLastN k ["Name", "Function", "Magic"]) = some c ∧
      ∀ j, j < k →
        lookupTok ASCIIMATIC_COLORS
            (dropLastN j ["Name", "Function", "Magic"]) = none :=
  c9_color_fallback ASCIIMATIC_COLORS ["Name", "Function", "Magic"] 7 rfl

end Present

